import Mathlib

/-!
Verification of `native/setup-sdk.py` (Ultralight SDK setup script).

The script is orchestration over filesystem primitives.  We embed it
shallowly:

* a filesystem node is an `FSTree` (a plain file, or a directory holding an
  ordered association list of named children — the list order models the
  OS iteration order of `Path.iterdir` / dict insertion order);
* the contents of a directory are its `Entries`;
* the mutable on-disk state the script manages is the entry list of the
  `sdk/` directory, threaded explicitly through `setup_platform`;
* Python exceptions that the script never catches are modelled with
  `Except`: `PyExc.badZip` is an in-process `zipfile` error, and
  `PyExc.moveClash` a `shutil.move` fault when the computed destination
  already exists.
-/

namespace SetupSdk

/-- A filesystem node: a plain file, or a directory with named children in
OS iteration order.  (File contents are irrelevant to the script.) -/
inductive FSTree : Type where
  | file : FSTree
  | dir : List (String × FSTree) → FSTree

/-- The children of a directory, in iteration order. -/
abbrev Entries := List (String × FSTree)

/-- Whether a node is a directory (`Path.is_dir()`). -/
def FSTree.isDir : FSTree → Bool
  | .file => false
  | .dir _ => true

/-- First child of the given name (sibling names are unique on a real
filesystem, so first-match agrees with path resolution). -/
def getEntry (cs : Entries) (k : String) : Option FSTree :=
  (cs.find? (fun e => e.1 == k)).map (·.2)

/-- Resolve a relative path below a node; `none` models a nonexistent path,
so `(p / q).exists()` is `(FSTree.lookup q t).isSome`. -/
def FSTree.lookup : List String → FSTree → Option FSTree
  | [], t => some t
  | _ :: _, .file => none
  | n :: p, .dir cs =>
      match getEntry cs n with
      | some c => FSTree.lookup p c
      | none => none

/-- The marker file path `include/Ultralight/Ultralight.h`
(`PLATFORMS[...]["test_file"]`, identical for all four platforms). -/
def markerPath : List String := ["include", "Ultralight", "Ultralight.h"]

/-- `(d / test_file).exists()` for a node `d`. -/
def hasMarker (t : FSTree) : Bool := (FSTree.lookup markerPath t).isSome

/-- `(extracted_dir / test_file).exists()` for a directory given by its
entries. -/
def dirHasMarker (cs : Entries) : Bool := hasMarker (.dir cs)

/-- Inner loop of `find_sdk_root`: scan the children of subdirectory `n`
for a directory containing the marker (depth two). -/
def scanDepth2 (n : String) : Entries → Option (List String × FSTree)
  | [] => none
  | (m, d) :: rest =>
      if d.isDir && hasMarker d then some ([n, m], d) else scanDepth2 n rest

/-- Outer loop of `find_sdk_root`: for each immediate subdirectory in
iteration order, check it for the marker, then (still inside the same
iteration) check its own subdirectories, before moving to the next
sibling. -/
def scanDepth1 : Entries → Option (List String × FSTree)
  | [] => none
  | (n, c) :: rest =>
      match c with
      | .file => scanDepth1 rest
      | .dir ds =>
          if hasMarker (.dir ds) then some ([n], .dir ds)
          else
            match scanDepth2 n ds with
            | some r => some r
            | none => scanDepth1 rest

/-- `find_sdk_root(extracted_dir)`: the extraction directory is given by its
entries; the returned `Path` is modelled as the pair of the relative path
from the extraction root and the directory it denotes. -/
def find_sdk_root (cs : Entries) : Option (List String × FSTree) :=
  if dirHasMarker cs then some ([], .dir cs) else scanDepth1 cs

/-- The candidate directories `find_sdk_root` examines, as (relative path,
subtree) pairs, in traversal order: the root itself, then for each
immediate subdirectory (in iteration order) that subdirectory followed by
its own immediate subdirectories. -/
def candsOfEntry (e : String × FSTree) : List (List String × FSTree) :=
  match e.2 with
  | .file => []
  | .dir ds =>
      ([e.1], FSTree.dir ds) ::
        ds.filterMap (fun d =>
          if d.2.isDir then some ([e.1, d.1], d.2) else none)

def candidatePairs (cs : Entries) : List (List String × FSTree) :=
  ([], FSTree.dir cs) :: cs.flatMap candsOfEntry

/-- The claim-side predicate "the marker file exists at depth 0, 1 or 2
below the extraction root": the root, some immediate subdirectory, or some
subdirectory two levels down contains the marker at its relative path. -/
def markerWithin (cs : Entries) : Bool :=
  dirHasMarker cs ||
    cs.any (fun e =>
      match e.2 with
      | .file => false
      | .dir ds =>
          dirHasMarker ds ||
            ds.any (fun d =>
              match d.2 with
              | .file => false
              | .dir es => dirHasMarker es))

/-! ## Archive extraction and platform installation -/

/-- Python exceptions the script never catches: an in-process `zipfile`
extraction error, and a `shutil.move` fault (destination already exists,
or the rename target is an existing non-directory). -/
inductive PyExc : Type where
  | badZip : PyExc
  | moveClash : PyExc

/-- The environment `extract_archive` consults: the result of `find_7z()`
(first of `7z`, `7za`, `7zz` on the PATH, if any) and whether the spawned
`7z x` process exits with code 0. -/
structure ExtractEnv : Type where
  sevenZ : Option String
  sevenZOk : Bool

/-- An archive as the script observes it: its `Path.suffix`, the tree of
entries its extraction deposits in the destination directory, and whether
an in-process zip extraction succeeds (`false` models a corrupt or
unreadable zip, which raises). -/
structure Archive : Type where
  suffix : String
  contents : Entries
  zipOk : Bool

/-- `extract_archive(archive_path, dest_dir)`.  The destination directory
state is `none` when it does not exist; `mkdir(parents=True, exist_ok=True)`
turns it into an (empty) directory.  Matches the source dispatch: `.7z`
via the external tool, `.zip` in-process (uncaught exception on failure),
anything else reports an unknown-format error and returns `False` without
touching the destination. -/
def extract_archive (env : ExtractEnv) (a : Archive) (dest : Option Entries) :
    Except PyExc (Bool × Option Entries) :=
  if a.suffix == ".7z" then
    match env.sevenZ with
    | none => .ok (false, dest)
    | some _ =>
        if env.sevenZOk then .ok (true, some (dest.getD [] ++ a.contents))
        else .ok (false, some (dest.getD []))
  else if a.suffix == ".zip" then
    if a.zipOk then .ok (true, some (dest.getD [] ++ a.contents))
    else .error .badZip
  else .ok (false, dest)

/-- Python `str.strip()`: drop leading and trailing whitespace. -/
def pyStrip (s : String) : String :=
  String.mk (((s.data.dropWhile Char.isWhitespace).reverse.dropWhile
    Char.isWhitespace).reverse)

/-- Python `str.lower()` (ASCII case mapping suffices for the prompt's
comparison against the letter y). -/
def pyLower (s : String) : String := String.mk (s.data.map Char.toLower)

/-- `response.strip().lower() != 'y'` is `!respIsYes response`. -/
def respIsYes (s : String) : Bool := pyLower (pyStrip s) == "y"

/-- Remove the entry of the given name (`shutil.rmtree(target_dir)` at the
top of the `sdk/` directory). -/
def eraseEntry (cs : Entries) (k : String) : Entries :=
  cs.eraseP (fun e => e.1 == k)

/-- Replace the value of the first entry of the given name, or append. -/
def setEntry : Entries → String → FSTree → Entries
  | [], k, v => [(k, v)]
  | (m, c) :: rest, k, v =>
      if m == k then (k, v) :: rest else (m, c) :: setEntry rest k v

/-- `(SDK_DIR / platform / test_file).exists()`: the marker check under a
platform's target directory, where `sdk` is the entry list of `SDK_DIR`. -/
def markerAt (sdk : Entries) (pl : String) : Bool :=
  (FSTree.lookup (pl :: markerPath) (.dir sdk)).isSome

/-- `shutil.move(str(sdk_root), str(target_dir))` where `target_dir` is
`SDK_DIR / pl`, `src` is the moved directory and `srcName` its basename:
if the destination does not exist the source is renamed to it; if it is an
existing directory the source is moved *inside* it (erroring if that name
is already taken); renaming onto an existing plain file faults. -/
def shutil_move (sdk : Entries) (pl : String) (srcName : String) (src : FSTree) :
    Except PyExc Entries :=
  match getEntry sdk pl with
  | none => .ok (sdk ++ [(pl, src)])
  | some (.dir cs) =>
      if (getEntry cs srcName).isSome then .error .moveClash
      else .ok (setEntry sdk pl (.dir (cs ++ [(srcName, src)])))
  | some .file => .error .moveClash

/-- Result of one `setup_platform` run: its return value, the entry list of
`SDK_DIR` afterwards, and whether the ephemeral extraction scratch
directory is gone from disk when the function returns (the
`tempfile.TemporaryDirectory` context manager removes it on scope exit). -/
structure SetupResult : Type where
  ok : Bool
  sdk : Entries
  scratchGone : Bool

/-- The `with tempfile.TemporaryDirectory()` body of `setup_platform`:
extract into a fresh empty scratch directory, locate the SDK root, move it
to the target; the scratch directory is gone when the block exits on any
of these paths.  `tmpName` is the (random) basename of the scratch
directory — it only matters when the discovered SDK root is the scratch
directory itself. -/
def installFrom (env : ExtractEnv) (tmpName : String) (pl : String)
    (a : Archive) (sdk1 : Entries) : Except PyExc SetupResult :=
  match extract_archive env a (some []) with
  | .error e => .error e
  | .ok (false, _) => .ok ⟨false, sdk1, true⟩
  | .ok (true, destSt) =>
      match find_sdk_root (destSt.getD []) with
      | none => .ok ⟨false, sdk1, true⟩
      | some (p, root) =>
          match shutil_move sdk1 pl (p.getLast?.getD tmpName) root with
          | .error e => .error e
          | .ok sdk2 => .ok ⟨true, sdk2, true⟩

/-- `setup_platform(platform, archive_path)`: overwrite check and prompt,
then the scratch-directory block; `answer` is the operator's reply to the
overwrite prompt. -/
def setup_platform (env : ExtractEnv) (tmpName : String) (sdk : Entries)
    (pl : String) (a : Archive) (answer : String) : Except PyExc SetupResult :=
  if markerAt sdk pl then
    if respIsYes answer then installFrom env tmpName pl a (eraseEntry sdk pl)
    else .ok ⟨true, sdk, true⟩
  else installFrom env tmpName pl a sdk

/-- The install loop of `main`: run `setup_platform` for each assigned
platform in order (an uncaught exception terminates the whole run), and
report whether every attempted install succeeded. -/
def processArchives (env : ExtractEnv) (tmpName : String)
    (answers : String → String) :
    Entries → List (String × Archive) → Except PyExc (Bool × Entries)
  | sdk, [] => .ok (true, sdk)
  | sdk, (pl, a) :: rest =>
      match setup_platform env tmpName sdk pl a (answers pl) with
      | .error e => .error e
      | .ok r =>
          match processArchives env tmpName answers r.sdk rest with
          | .error e => .error e
          | .ok (b, s) => .ok (r.ok && b, s)

/-! ## Archive discovery (`find_archives`) and `main` -/

/-- Glob matching for the patterns the script uses, which contain only
literal characters and `*` (fnmatch semantics: `*` matches any, possibly
empty, character sequence; matching is case-sensitive as on POSIX). -/
def globMatch : List Char → List Char → Bool
  | [], s => s.isEmpty
  | '*' :: ps, s => s.tails.any (fun t => globMatch ps t)
  | c :: ps, s =>
      match s with
      | [] => false
      | d :: ds => c == d && globMatch ps ds

/-- `search_dir.glob(pattern)` over the directory's file names.  The
script uses `pathlib.Path.glob`, which matches hidden (dot-prefixed)
names like any others, so no name is excluded beyond the pattern test. -/
def globFiles (files : List String) (pat : String) : List String :=
  files.filter (fun f => globMatch pat.data f.data)

/-- Python string `<`: lexicographic comparison by code point. -/
def strLtCore : List Char → List Char → Bool
  | [], [] => false
  | [], _ :: _ => true
  | _ :: _, [] => false
  | c :: cs, d :: ds =>
      Nat.blt c.toNat d.toNat || (c == d && strLtCore cs ds)

/-- Python string `<` on `String`. -/
def strLt (a b : String) : Bool := strLtCore a.data b.data

/-- `sorted(matches)[-1]`: the lexicographically largest name (Python
sorts same-directory paths by their name strings, by code point). -/
def maxStr (l : List String) : String :=
  l.foldl (fun a b => if strLt a b then b else a) ""

/-- One glob probe of `find_archives`: the files matching
`f"\x7bpattern\x7d\x7bext\x7d"`, reduced to `sorted(matches)[-1]` when
nonempty. -/
def pickArchive (files : List String) (pat : String) (ext : String) : Option String :=
  match globFiles files (pat ++ ext) with
  | [] => none
  | ms => some (maxStr ms)

/-- The fixed extension preference order `[".7z", ".zip"]`. -/
def exts : List String := [".7z", ".zip"]

/-- Inner loop of `find_archives`: try extensions in preference order for
one pattern, stopping at the first that has matches. -/
def tryExts (files : List String) (pat : String) : List String → Option String
  | [] => none
  | e :: es =>
      match pickArchive files pat e with
      | some f => some f
      | none => tryExts files pat es

/-- Outer loop of `find_archives`: try the platform's patterns in priority
order, stopping at the first (pattern, extension) probe that hits. -/
def tryPats (files : List String) : List String → Option String
  | [] => none
  | p :: ps =>
      match tryExts files p exts with
      | some f => some f
      | none => tryPats files ps

/-- The `PLATFORMS` table restricted to what discovery and installation
consult: the platform names in dict insertion order with their
`archive_patterns` (every platform's `test_file` is `markerPath`). -/
def PLATFORMS : List (String × List String) :=
  [("win-x64", ["*win*x64*", "*win*64*", "*windows*"]),
   ("linux-x64", ["*linux*x64*", "*linux*64*"]),
   ("mac-x64", ["*mac*x64*", "*macos*x64*", "*osx*x64*"]),
   ("mac-arm64", ["*mac*arm64*", "*macos*arm64*", "*mac*aarch64*", "*osx*arm64*"])]

/-- A search directory as `find_archives` observes it: whether it exists
and the names of the files it holds. -/
structure SearchDir : Type where
  present : Bool
  files : List String

/-- `find_archives(search_dir)`: the platform → archive-name dict in
insertion order. -/
def find_archives (d : SearchDir) : List (String × String) :=
  if !d.present then []
  else PLATFORMS.filterMap (fun pc => (tryPats d.files pc.2).map (fun f => (pc.1, f)))

/-- Dict lookup in the string-valued association lists built by `main`. -/
def getS (l : List (String × String)) (k : String) : Option String :=
  (l.find? (fun e => e.1 == k)).map (·.2)

/-- `archives[platform] = path` guarded by `if platform not in archives`. -/
def insertNew (acc : List (String × String)) (kv : String × String) :
    List (String × String) :=
  if (getS acc kv.1).isSome then acc else acc ++ [kv]

/-- The parsed command-line arguments `main` consults.  Search directories
are modelled by their observed contents (`SearchDir`), not by their
paths. -/
structure Args : Type where
  win : Option String
  linux : Option String
  mac : Option String
  mac_arm64 : Option String
  archives_dir : Option SearchDir
  list : Bool

/-- One optional dict entry: `if args.flag: archives[platform] = path`. -/
def optEntry (nm : String) (o : Option String) : List (String × String) :=
  match o with
  | some p => [(nm, p)]
  | none => []

/-- The manual-override assignments, inserted in source order (`--win`,
`--linux`, `--mac`, `--mac-arm64`). -/
def manualList (args : Args) : List (String × String) :=
  optEntry "win-x64" args.win ++ optEntry "linux-x64" args.linux ++
    optEntry "mac-x64" args.mac ++ optEntry "mac-arm64" args.mac_arm64

/-- The search directory list: the user-supplied directory alone when
given, otherwise the three default locations (`~/Downloads`, the script
directory, its parent), whose observed contents are `defaults`. -/
def searchDirs (args : Args) (defaults : List SearchDir) : List SearchDir :=
  match args.archives_dir with
  | some d => [d]
  | none => defaults

/-- The archive-assignment dict `main` builds: manual overrides first,
then — only while some platform is unassigned — each search directory's
discoveries, never overwriting an existing assignment. -/
def collectArchives (args : Args) (defaults : List SearchDir) :
    List (String × String) :=
  if (manualList args).length < PLATFORMS.length then
    (searchDirs args defaults).foldl
      (fun acc d => (find_archives d).foldl insertNew acc) (manualList args)
  else manualList args

/-- The exit status of `main`, given the per-platform install outcomes
(`installOk pl path` is what `setup_platform` returns for that
assignment); models the run in which no uncaught exception occurs. -/
def mainExit (args : Args) (defaults : List SearchDir)
    (installOk : String → String → Bool) : Nat :=
  if args.list then 0
  else
    let archives := collectArchives args defaults
    if archives.isEmpty then 1
    else if archives.all (fun kv => installOk kv.1 kv.2) then 0 else 1

/-! ## Concrete instances used by counterexamples and witnesses -/

/-- A directory containing the marker file at its expected relative path. -/
def sdkLike : FSTree :=
  .dir [("include", .dir [("Ultralight", .dir [("Ultralight.h", .file)])])]

/-- An extraction result whose first subdirectory (iteration order) wraps a
marker-bearing directory at depth two while its second subdirectory holds
the marker itself at depth one. -/
def exEntries : Entries := [("a", .dir [("x", sdkLike)]), ("b", sdkLike)]

/-- An environment with a working external 7z tool. -/
def env0 : ExtractEnv := ⟨some "7z", true⟩

/-- An `sdk/` directory with a valid `win-x64` install. -/
def sdk0 : Entries := [("win-x64", sdkLike)]

/-- An archive with an unrecognized extension. -/
def rarArch : Archive := ⟨".rar", [], true⟩

/-- A corrupt (unreadable) zip archive. -/
def zipArchBad : Archive := ⟨".zip", [], false⟩

/-- A readable zip archive wrapping the SDK root one level deep. -/
def zipArchGood : Archive := ⟨".zip", [("ultralight-sdk", sdkLike)], true⟩

/-- An `sdk/` directory whose `linux-x64` target exists but lacks the
marker file. -/
def preTarget : Entries := [("linux-x64", .dir [("leftover", .file)])]

/-- The search-directory contents of the two-versions scenario. -/
def files0 : List String :=
  ["ultralight-sdk-1.3.0-linux-x64.7z", "ultralight-sdk-1.4.0-linux-x64.7z"]

/-! ## Spec-side definitions (stated from the spec text, for comparison) -/

/-- The (pattern, extension) probe order the spec describes: patterns in
priority order, and for each pattern the extensions in preference order. -/
def patExtPairs (pats : List String) : List (String × String) :=
  pats.flatMap (fun p => exts.map (fun e => (p, e)))

/-- The manual override for a platform, per flag. -/
def manualOf (args : Args) (pl : String) : Option String :=
  if pl == "win-x64" then args.win
  else if pl == "linux-x64" then args.linux
  else if pl == "mac-x64" then args.mac
  else if pl == "mac-arm64" then args.mac_arm64
  else none

/-- The first search directory's discovery for a platform, in directory
priority order. -/
def firstFound (args : Args) (defaults : List SearchDir) (pl : String) :
    Option String :=
  ((searchDirs args defaults).filterMap (fun d => getS (find_archives d) pl)).head?

/-! ## SDK root search: traversal order and depth bounds (C2, C8) -/

theorem scanDepth2_eq (n : String) (ds : Entries) :
    scanDepth2 n ds =
      (ds.filterMap (fun d => if d.2.isDir then some ([n, d.1], d.2) else none)).find?
        (fun pr => hasMarker pr.2) := by
  induction ds with
  | nil => rfl
  | cons hd rest ih =>
      obtain ⟨m, d⟩ := hd
      by_cases hdir : d.isDir
      · by_cases hm : hasMarker d
        · simp [scanDepth2, hdir, hm, List.filterMap_cons]
        · simp [scanDepth2, hdir, hm, List.filterMap_cons, ih]
      · simp [scanDepth2, hdir, List.filterMap_cons, ih]

theorem scanDepth1_eq (cs : Entries) :
    scanDepth1 cs = (cs.flatMap candsOfEntry).find? (fun pr => hasMarker pr.2) := by
  induction cs with
  | nil => rfl
  | cons hd rest ih =>
      obtain ⟨n, c⟩ := hd
      cases c with
      | file => simpa [scanDepth1, candsOfEntry] using ih
      | dir ds =>
          by_cases hm : hasMarker (FSTree.dir ds)
          · simp [scanDepth1, candsOfEntry, hm, List.flatMap_cons, List.find?_append]
          · rw [scanDepth1]
            simp only [hm, if_false, List.flatMap_cons, candsOfEntry,
              List.find?_append, scanDepth2_eq, ih]
            simp only [List.find?_cons_of_neg, hm, Bool.not_eq_true]
            cases h2 : (ds.filterMap
                (fun d => if d.2.isDir then some ([n, d.1], d.2) else none)).find?
                  (fun pr => hasMarker pr.2) <;>
              simp [h2, Option.or]

theorem find_sdk_root_eq_find (cs : Entries) :
    find_sdk_root cs = (candidatePairs cs).find? (fun pr => hasMarker pr.2) := by
  by_cases hm : dirHasMarker cs
  · have : hasMarker (FSTree.dir cs) = true := hm
    simp [find_sdk_root, candidatePairs, hm, this]
  · have : ¬ hasMarker (FSTree.dir cs) = true := hm
    simp [find_sdk_root, candidatePairs, hm, this, scanDepth1_eq]

theorem dirHasMarker_def (cs : Entries) : dirHasMarker cs = hasMarker (.dir cs) := rfl

theorem any_filterMap_depth2 (n : String) (ds : Entries) :
    ((ds.filterMap (fun d => if d.2.isDir then some ([n, d.1], d.2) else none)).any
        (fun pr => hasMarker pr.2)) =
      ds.any (fun d =>
        match d.2 with
        | .file => false
        | .dir es => dirHasMarker es) := by
  induction ds with
  | nil => rfl
  | cons d rest ih =>
      obtain ⟨m, t⟩ := d
      cases t with
      | file =>
          rw [List.filterMap_cons_none (by rfl), ih, List.any_cons]
          rfl
      | dir es =>
          rw [List.filterMap_cons_some (by rfl), List.any_cons, ih, List.any_cons]
          rfl

theorem any_candsOfEntry (e : String × FSTree) :
    (candsOfEntry e).any (fun pr => hasMarker pr.2) =
      (match e.2 with
       | .file => false
       | .dir ds =>
          dirHasMarker ds ||
            ds.any (fun d =>
              match d.2 with
              | .file => false
              | .dir es => dirHasMarker es)) := by
  obtain ⟨n, c⟩ := e
  cases c with
  | file => rfl
  | dir ds =>
      simp only [candsOfEntry, List.any_cons, any_filterMap_depth2]
      rfl

theorem markerWithin_eq_any (cs : Entries) :
    markerWithin cs = (candidatePairs cs).any (fun pr => hasMarker pr.2) := by
  simp only [candidatePairs, List.any_cons, List.any_flatMap, any_candsOfEntry]
  rfl

theorem candidate_length_le (cs : Entries) (pr : List String × FSTree)
    (h : pr ∈ candidatePairs cs) : pr.1.length ≤ 2 := by
  simp only [candidatePairs, List.mem_cons, List.mem_flatMap] at h
  rcases h with h | ⟨e, _, he⟩
  · simp [h]
  · obtain ⟨nm, t⟩ := e
    cases t with
    | file => simp [candsOfEntry] at he
    | dir ds =>
        simp only [candsOfEntry, List.mem_cons, List.mem_filterMap] at he
        rcases he with he | ⟨d, _, hd⟩
        · simp [he]
        · split at hd
          · simp only [Option.some.injEq] at hd
            simp [← hd]
          · simp at hd

/-- C2: counterexample.  In `exEntries` the immediate subdirectory `b`
contains the marker file, yet `find_sdk_root` returns the depth-2
directory `a/x`: the search does not finish all immediate subdirectories
before descending two levels, so the claimed level-by-level order is false
for this iteration order. -/
theorem c2_counterexample :
    (exEntries.any (fun e => e.2.isDir && hasMarker e.2)) = true
    ∧ (find_sdk_root exEntries).map (fun pr => pr.1.length) = some 2 :=
  ⟨rfl, rfl⟩

/-- C2 (amended): the search checks the extraction root first; it then
visits each immediate subdirectory in iteration order, checking that
subdirectory and then its own immediate subdirectories before moving to
the next sibling, and returns the first directory in this interleaved
traversal order that contains the marker file (so a depth-2 directory
under an earlier sibling can win over a depth-1 marker in a later
sibling). -/
theorem c2_search_interleaved (cs : Entries) :
    find_sdk_root cs = (candidatePairs cs).find? (fun pr => hasMarker pr.2) :=
  find_sdk_root_eq_find cs

/-- C8: whenever the marker file exists at depth 0, 1 or 2 below the
extraction root, `find_sdk_root` returns a directory containing the marker
at its expected relative path (at depth at most 2); when no marker exists
within depth 2, it returns `none`. -/
theorem c8_root_finder_depth (cs : Entries) :
    (markerWithin cs = true →
      ∃ pr, find_sdk_root cs = some pr ∧ hasMarker pr.2 = true ∧ pr.1.length ≤ 2)
    ∧ (markerWithin cs = false → find_sdk_root cs = none) := by
  constructor
  · intro h
    rw [markerWithin_eq_any] at h
    rcases List.any_eq_true.mp h with ⟨x, hx, hpx⟩
    have hsome : ((candidatePairs cs).find? (fun pr => hasMarker pr.2)).isSome :=
      List.find?_isSome.mpr ⟨x, hx, hpx⟩
    obtain ⟨pr, hpr⟩ := Option.isSome_iff_exists.mp hsome
    have hps := List.find?_some hpr
    refine ⟨pr, ?_, hps, candidate_length_le cs pr (List.mem_of_find?_eq_some hpr)⟩
    rw [find_sdk_root_eq_find]
    exact hpr
  · intro h
    rw [markerWithin_eq_any] at h
    rw [find_sdk_root_eq_find]
    refine List.find?_eq_none.mpr (fun x hx => ?_)
    intro hpx
    have hany : (candidatePairs cs).any (fun pr => hasMarker pr.2) = true :=
      List.any_eq_true.mpr ⟨x, hx, hpx⟩
    rw [h] at hany
    exact Bool.noConfusion hany

/-- C8 witness: both branches applied at concrete extraction trees (marker
within two levels in `exEntries`; no marker at all under a single plain
file). -/
theorem c8_root_finder_depth_witness :
    (markerWithin exEntries = true
      ∧ ∃ pr, find_sdk_root exEntries = some pr ∧ hasMarker pr.2 = true
          ∧ pr.1.length ≤ 2)
    ∧ (markerWithin [("a", FSTree.file)] = false
      ∧ find_sdk_root [("a", FSTree.file)] = none) :=
  ⟨⟨rfl, (c8_root_finder_depth exEntries).1 rfl⟩,
   ⟨rfl, (c8_root_finder_depth [("a", FSTree.file)]).2 rfl⟩⟩

/-! ## Platform installer (C1, C6, C7, C9, C10) -/

theorem installFrom_scratchGone (env : ExtractEnv) (tmpName : String)
    (pl : String) (a : Archive) (sdk1 : Entries) (r : SetupResult)
    (h : installFrom env tmpName pl a sdk1 = .ok r) : r.scratchGone = true := by
  unfold installFrom at h
  split at h
  · exact Except.noConfusion h
  · cases h
    rfl
  · split at h
    · cases h
      rfl
    · split at h
      · exact Except.noConfusion h
      · cases h
        rfl

/-- C6: for a platform with a valid pre-existing install, any answer other
than yes to the overwrite prompt leaves the `sdk/` state (and so the
marker file) unchanged, performs no extraction or move, and the install is
reported as success. -/
theorem c6_decline_keeps_install (env : ExtractEnv) (tmpName : String)
    (sdk : Entries) (pl : String) (a : Archive) (answer : String)
    (hm : markerAt sdk pl = true) (hn : respIsYes answer = false) :
    setup_platform env tmpName sdk pl a answer = .ok ⟨true, sdk, true⟩ := by
  simp [setup_platform, hm, hn]

/-- C6 witness: declining with answer " N " on a valid `win-x64` install. -/
theorem c6_decline_keeps_install_witness :
    markerAt sdk0 "win-x64" = true ∧ respIsYes " N " = false
    ∧ setup_platform env0 "tmp0" sdk0 "win-x64" rarArch " N "
        = .ok ⟨true, sdk0, true⟩ :=
  ⟨rfl, rfl, c6_decline_keeps_install env0 "tmp0" sdk0 "win-x64" rarArch " N " rfl rfl⟩

/-- C7: on every normal return of `setup_platform` — successful install,
extractor failure, or SDK-root-not-found failure — the ephemeral scratch
directory no longer exists on disk. -/
theorem c7_scratch_removed (env : ExtractEnv) (tmpName : String) (sdk : Entries)
    (pl : String) (a : Archive) (answer : String) (r : SetupResult)
    (h : setup_platform env tmpName sdk pl a answer = .ok r) :
    r.scratchGone = true := by
  unfold setup_platform at h
  split at h
  · split at h
    · exact installFrom_scratchGone env tmpName pl a (eraseEntry sdk pl) r h
    · cases h
      rfl
  · exact installFrom_scratchGone env tmpName pl a sdk r h

/-- C7 witness: a run reaching extraction (extractor failure path). -/
theorem c7_scratch_removed_witness :
    setup_platform env0 "tmp0" [] "win-x64" rarArch "x"
        = .ok ⟨false, [], true⟩
    ∧ (⟨false, [], true⟩ : SetupResult).scratchGone = true :=
  ⟨rfl, c7_scratch_removed env0 "tmp0" [] "win-x64" rarArch "x" ⟨false, [], true⟩ rfl⟩

/-- C1: counterexample.  With a valid `win-x64` install present and the
operator confirming the overwrite prompt, installing an archive with the
unrecognized extension `.rar` aborts with the format error — but the
pre-existing target directory was deleted first, so the on-disk state
under the target directory is not identical before and after the attempted
install. -/
theorem c1_counterexample :
    setup_platform env0 "tmp0" sdk0 "win-x64" rarArch "y" = .ok ⟨false, [], true⟩
    ∧ (getEntry sdk0 "win-x64").isSome = true
    ∧ (getEntry ([] : Entries) "win-x64").isSome = false :=
  ⟨rfl, rfl, rfl⟩

/-- C1 (amended): for every archive with an unrecognized extension, when
the target directory does not already hold a valid install (so no
overwrite prompt fires), the platform install aborts with the format
error and the `sdk/` directory state is unchanged. -/
theorem c1_unknown_format_aborts (env : ExtractEnv) (tmpName : String)
    (sdk : Entries) (pl : String) (a : Archive) (answer : String)
    (h7 : a.suffix ≠ ".7z") (hz : a.suffix ≠ ".zip")
    (hm : markerAt sdk pl = false) :
    setup_platform env tmpName sdk pl a answer = .ok ⟨false, sdk, true⟩ := by
  have he : extract_archive env a (some []) = .ok (false, some []) := by
    simp [extract_archive, h7, hz]
  simp [setup_platform, hm, installFrom, he]

/-- C1 witness: unrecognized `.rar` with no pre-existing install. -/
theorem c1_unknown_format_aborts_witness :
    rarArch.suffix ≠ ".7z" ∧ rarArch.suffix ≠ ".zip"
    ∧ markerAt ([] : Entries) "win-x64" = false
    ∧ setup_platform env0 "tmp1" [] "win-x64" rarArch "" = .ok ⟨false, [], true⟩ :=
  ⟨by decide, by decide, rfl,
    c1_unknown_format_aborts env0 "tmp1" [] "win-x64" rarArch ""
      (by decide) (by decide) rfl⟩

theorem getEntry_append (l1 l2 : Entries) (k : String) :
    getEntry (l1 ++ l2) k = (getEntry l1 k).or (getEntry l2 k) := by
  unfold getEntry
  rw [List.find?_append]
  cases l1.find? (fun e => e.1 == k) <;> simp

theorem getEntry_setEntry_self (cs : Entries) (k : String) (v : FSTree) :
    getEntry (setEntry cs k v) k = some v := by
  induction cs with
  | nil => simp [setEntry, getEntry]
  | cons hd rest ih =>
      obtain ⟨m, c⟩ := hd
      by_cases hmk : m == k
      · simp [setEntry, hmk, getEntry]
      · simp only [setEntry, hmk, if_false, Bool.false_eq_true]
        rw [getEntry, List.find?_cons_of_neg _ (by simpa using hmk)]
        exact ih

theorem lookup_cons_dir (cs : Entries) (n : String) (p : List String) :
    FSTree.lookup (n :: p) (.dir cs)
      = match getEntry cs n with
        | some c => FSTree.lookup p c
        | none => none := rfl

theorem getEntry_single_ne (k s : String) (v : FSTree) (h : s ≠ k) :
    getEntry [(s, v)] k = none := by
  have hb : (s == k) = false := by simpa using h
  simp [getEntry, List.find?, hb]

/-- C10: when the target directory already exists but lacks the marker
file, no prompt is consulted (the result is the same for every answer);
on successful extraction and root discovery, the move nests the SDK root
as a new subdirectory inside the pre-existing target, the install reports
success, and the marker file is still absent at the target's expected
relative path. -/
theorem c10_nested_move_on_existing_target (env : ExtractEnv) (tmpName : String)
    (sdk : Entries) (pl : String) (a : Archive) (answer : String)
    (tcs es : Entries) (p : List String) (root : FSTree) (srcName : String)
    (hT : getEntry sdk pl = some (.dir tcs))
    (hm : markerAt sdk pl = false)
    (hx : extract_archive env a (some []) = .ok (true, some es))
    (hr : find_sdk_root es = some (p, root))
    (hsn : srcName = p.getLast?.getD tmpName)
    (hfree : (getEntry tcs srcName).isSome = false)
    (hinc : srcName ≠ "include") :
    setup_platform env tmpName sdk pl a answer
      = .ok ⟨true, setEntry sdk pl (.dir (tcs ++ [(srcName, root)])), true⟩
    ∧ markerAt (setEntry sdk pl (.dir (tcs ++ [(srcName, root)]))) pl = false := by
  have hmove : shutil_move sdk pl srcName root
      = .ok (setEntry sdk pl (.dir (tcs ++ [(srcName, root)]))) := by
    unfold shutil_move
    rw [hT]
    simp only [hfree, Bool.false_eq_true, if_false]
  constructor
  · rw [setup_platform, if_neg (by simp [hm]), installFrom, hx]
    simp only [Option.getD_some, hr, ← hsn, hmove]
  · have hset : getEntry (setEntry sdk pl (.dir (tcs ++ [(srcName, root)]))) pl
        = some (.dir (tcs ++ [(srcName, root)])) := getEntry_setEntry_self sdk pl _
    have happ : getEntry (tcs ++ [(srcName, root)]) "include" = getEntry tcs "include" := by
      rw [getEntry_append, getEntry_single_ne _ _ _ hinc, Option.or_none]
    unfold markerAt at hm ⊢
    rw [lookup_cons_dir, hset] at *
    rw [hT] at hm
    simp only [markerPath] at hm ⊢
    rw [lookup_cons_dir, happ]
    rw [lookup_cons_dir] at hm
    exact hm

/-- C10 witness: pre-existing markerless `linux-x64` target, a zip archive
wrapping the SDK root one level deep. -/
theorem c10_nested_move_on_existing_target_witness :
    setup_platform env0 "tmp0" preTarget "linux-x64" zipArchGood "irrelevant"
      = .ok ⟨true,
          setEntry preTarget "linux-x64"
            (.dir ([("leftover", FSTree.file)] ++ [("ultralight-sdk", sdkLike)])), true⟩
    ∧ markerAt
        (setEntry preTarget "linux-x64"
          (.dir ([("leftover", FSTree.file)] ++ [("ultralight-sdk", sdkLike)])))
        "linux-x64" = false :=
  c10_nested_move_on_existing_target env0 "tmp0" preTarget "linux-x64" zipArchGood
    "irrelevant" [("leftover", FSTree.file)] [("ultralight-sdk", sdkLike)]
    ["ultralight-sdk"] sdkLike "ultralight-sdk" rfl rfl rfl rfl rfl rfl (by decide)

/-- C9: for zip archives `extract_archive` either succeeds or raises an
exception that nothing in the program catches; a `False` return is only
possible for non-zip suffixes (`.7z` tool problems or unrecognized
formats), so an in-process zip failure propagates through
`setup_platform` and the `main` install loop and terminates the whole
run. -/
theorem c9_zip_errors_uncaught :
    (∀ (env : ExtractEnv) (a : Archive) (dest : Option Entries),
      a.suffix = ".zip" →
      (a.zipOk = true →
        extract_archive env a dest = .ok (true, some (dest.getD [] ++ a.contents)))
      ∧ (a.zipOk = false → extract_archive env a dest = .error .badZip))
    ∧ (∀ (env : ExtractEnv) (a : Archive) (dest : Option Entries)
        (b : Bool) (st : Option Entries),
        extract_archive env a dest = .ok (b, st) → b = false → a.suffix ≠ ".zip")
    ∧ (∀ (env : ExtractEnv) (tmpName : String) (answers : String → String)
        (sdk : Entries) (pl : String) (a : Archive) (rest : List (String × Archive)),
        a.suffix = ".zip" → a.zipOk = false →
        (markerAt sdk pl = false ∨ respIsYes (answers pl) = true) →
        processArchives env tmpName answers sdk ((pl, a) :: rest) = .error .badZip) := by
  have hz7 : ((".zip" : String) == ".7z") = false := by decide
  have hzz : ((".zip" : String) == ".zip") = true := by decide
  refine ⟨?_, ?_, ?_⟩
  · intro env a dest hs
    constructor
    · intro hok
      simp [extract_archive, hs, hz7, hzz, hok]
    · intro hbad
      simp [extract_archive, hs, hz7, hzz, hbad]
  · intro env a dest b st h hb heq
    cases hzo : a.zipOk
    all_goals simp [extract_archive, heq, hz7, hzz, hzo] at h
    all_goals simp_all
  · intro env tmpName answers sdk pl a rest hs hz hreach
    have hext : extract_archive env a (some []) = .error .badZip := by
      simp [extract_archive, hs, hz7, hzz, hz]
    have hsetup : setup_platform env tmpName sdk pl a (answers pl) = .error .badZip := by
      rcases hreach with hmk | hy
      · simp [setup_platform, hmk, installFrom, hext]
      · by_cases hmk : markerAt sdk pl
        · simp [setup_platform, hmk, hy, installFrom, hext]
        · simp [setup_platform, hmk, installFrom, hext]
    simp [processArchives, hsetup]

/-- C9 witness: a readable zip succeeds, a corrupt zip raises, the raised
error propagates out of the whole install loop, and a False return did
come from a non-zip suffix. -/
theorem c9_zip_errors_uncaught_witness :
    extract_archive env0 zipArchGood (some []) = .ok (true, some zipArchGood.contents)
    ∧ extract_archive env0 zipArchBad (some []) = .error .badZip
    ∧ rarArch.suffix ≠ ".zip"
    ∧ processArchives env0 "tmp0" (fun _ => "") [] [("linux-x64", zipArchBad)]
        = .error .badZip :=
  ⟨(c9_zip_errors_uncaught.1 env0 zipArchGood (some []) rfl).1 rfl,
   (c9_zip_errors_uncaught.1 env0 zipArchBad (some []) rfl).2 rfl,
   c9_zip_errors_uncaught.2.1 env0 rarArch (some []) false (some []) rfl rfl,
   c9_zip_errors_uncaught.2.2 env0 "tmp0" (fun _ => "") [] "linux-x64" zipArchBad []
     rfl rfl (Or.inl rfl)⟩

/-! ## Exit status, assignment precedence, archive discovery (C3, C4, C5) -/

/-- C3: in an install run (not `--list`), the exit status is 0 iff some
archives were assigned and every assigned platform's install succeeded,
and 1 iff no archives were assigned at all or some attempted install
failed; platforms with no assignment are not consulted. -/
theorem c3_exit_status (args : Args) (defaults : List SearchDir)
    (installOk : String → String → Bool) (hlist : args.list = false) :
    (mainExit args defaults installOk = 0 ↔
      collectArchives args defaults ≠ []
        ∧ ∀ kv ∈ collectArchives args defaults, installOk kv.1 kv.2 = true)
    ∧ (mainExit args defaults installOk = 1 ↔
      collectArchives args defaults = []
        ∨ ∃ kv ∈ collectArchives args defaults, installOk kv.1 kv.2 = false) := by
  unfold mainExit
  rw [hlist]
  by_cases hA : collectArchives args defaults = []
  · simp [hA]
  · have hne : (collectArchives args defaults).isEmpty = false := by
      simpa [List.isEmpty_iff] using hA
    by_cases hall : (collectArchives args defaults).all (fun kv => installOk kv.1 kv.2)
    · rw [List.all_eq_true] at hall
      simp only [Bool.false_eq_true, if_false, hne]
      rw [if_pos (List.all_eq_true.mpr hall)]
      constructor
      · exact ⟨fun _ => ⟨hA, hall⟩, fun _ => rfl⟩
      · constructor
        · intro h
          exact absurd h (by simp)
        · rintro (h | ⟨kv, hkv, hfalse⟩)
          · exact absurd h hA
          · rw [hall kv hkv] at hfalse
            exact Bool.noConfusion hfalse
    · simp only [Bool.false_eq_true, if_false, hne]
      rw [if_neg (by simpa using hall)]
      rw [List.all_eq_true] at hall
      push_neg at hall
      obtain ⟨kv, hkv, hfalse⟩ := hall
      replace hfalse : installOk kv.1 kv.2 = false := by simpa using hfalse
      constructor
      · constructor
        · intro h
          exact absurd h (by simp)
        · rintro ⟨-, hok⟩
          rw [hok kv hkv] at hfalse
          exact Bool.noConfusion hfalse
      · simp only [true_iff]
        exact Or.inr ⟨kv, hkv, hfalse⟩

/-- C3 witness: one assigned archive installing successfully exits 0. -/
theorem c3_exit_status_witness :
    mainExit ⟨none, none, none, none, some ⟨true, files0⟩, false⟩ []
        (fun _ _ => true) = 0 :=
  ((c3_exit_status ⟨none, none, none, none, some ⟨true, files0⟩, false⟩ []
      (fun _ _ => true) rfl).1).mpr ⟨by decide, by decide⟩

theorem getS_cons (kv : String × String) (l : List (String × String)) (k : String) :
    getS (kv :: l) k = if kv.1 == k then some kv.2 else getS l k := by
  by_cases h : kv.1 == k <;> simp [getS, List.find?_cons, h]

theorem getS_append (l1 l2 : List (String × String)) (k : String) :
    getS (l1 ++ l2) k = (getS l1 k).or (getS l2 k) := by
  unfold getS
  rw [List.find?_append]
  cases l1.find? (fun e => e.1 == k) <;> simp

theorem getS_optEntry (nm : String) (o : Option String) (k : String) :
    getS (optEntry nm o) k = if nm == k then o else none := by
  cases o <;> by_cases h : nm == k <;> simp [optEntry, getS, List.find?, h]

theorem getS_manualList (args : Args) (pl : String) :
    getS (manualList args) pl = manualOf args pl := by
  unfold manualList manualOf
  rw [getS_append, getS_append, getS_append,
    getS_optEntry, getS_optEntry, getS_optEntry, getS_optEntry]
  by_cases h1 : pl = "win-x64"
  · simp [h1]
  · by_cases h2 : pl = "linux-x64"
    · simp [h1, h2, Ne.symm h1]
    · by_cases h3 : pl = "mac-x64"
      · simp [h1, h2, h3, Ne.symm h1, Ne.symm h2]
      · by_cases h4 : pl = "mac-arm64"
        · simp [h1, h2, h3, h4, Ne.symm h1, Ne.symm h2, Ne.symm h3]
        · simp [h1, h2, h3, h4, Ne.symm h1, Ne.symm h2, Ne.symm h3, Ne.symm h4]

theorem getS_insertNew (acc : List (String × String)) (kv : String × String)
    (k : String) :
    getS (insertNew acc kv) k
      = (getS acc k).or (if kv.1 == k then some kv.2 else none) := by
  unfold insertNew
  by_cases hp : (getS acc kv.1).isSome
  · rw [if_pos hp]
    by_cases hk : kv.1 == k
    · have : k = kv.1 := (eq_of_beq hk).symm
      subst this
      obtain ⟨v, hv⟩ := Option.isSome_iff_exists.mp hp
      simp [hv, hk]
    · simp [hk]
  · rw [if_neg hp, getS_append, getS_cons]
    by_cases hk : kv.1 == k <;> simp [getS, hk]

theorem getS_foldl_insertNew (found : List (String × String)) :
    ∀ (acc : List (String × String)) (k : String),
      getS (found.foldl insertNew acc) k = (getS acc k).or (getS found k) := by
  induction found with
  | nil => simp [getS]
  | cons kv rest ih =>
      intro acc k
      rw [List.foldl_cons, ih, getS_insertNew, getS_cons, Option.or_assoc]
      by_cases hk : kv.1 == k <;> simp [hk]

theorem getS_dirs_foldl (dirs : List SearchDir) :
    ∀ (m : List (String × String)) (k : String),
      getS (dirs.foldl (fun acc d => (find_archives d).foldl insertNew acc) m) k
        = (getS m k).or ((dirs.filterMap (fun d => getS (find_archives d) k)).head?) := by
  induction dirs with
  | nil => simp
  | cons d rest ih =>
      intro m k
      rw [List.foldl_cons, ih, getS_foldl_insertNew, Option.or_assoc,
        List.filterMap_cons]
      cases hd : getS (find_archives d) k <;> simp [hd]

theorem getS_filterMap_none (files : List String) :
    ∀ (L : List (String × List String)) (k : String), (∀ pc ∈ L, pc.1 ≠ k) →
      getS (L.filterMap (fun pc => (tryPats files pc.2).map (fun f => (pc.1, f)))) k
        = none := by
  intro L
  induction L with
  | nil => intro k _; rfl
  | cons pc rest ih =>
      intro k hk
      rw [List.filterMap_cons]
      cases ht : tryPats files pc.2 with
      | none =>
          simp only [Option.map_none']
          exact ih k (fun x hx => hk x (List.mem_cons_of_mem pc hx))
      | some f =>
          simp only [Option.map_some']
          rw [getS_cons, if_neg (by simpa using hk pc (List.mem_cons_self pc rest))]
          exact ih k (fun x hx => hk x (List.mem_cons_of_mem pc hx))

theorem getS_find_archives_none (d : SearchDir) (pl : String)
    (h : ∀ pc ∈ PLATFORMS, pc.1 ≠ pl) : getS (find_archives d) pl = none := by
  unfold find_archives
  by_cases hp : d.present
  · simp only [hp, Bool.not_true, Bool.false_eq_true, if_false]
    exact getS_filterMap_none d.files PLATFORMS pl h
  · simp only [Bool.not_eq_true] at hp
    simp [hp, getS]

theorem manual_full_of_not_lt (args : Args)
    (h : ¬ (manualList args).length < PLATFORMS.length) :
    args.win.isSome ∧ args.linux.isSome ∧ args.mac.isSome ∧ args.mac_arm64.isSome := by
  obtain ⟨w, l, m, ma, ad, li⟩ := args
  cases w <;> cases l <;> cases m <;> cases ma <;>
    simp_all [manualList, optEntry, PLATFORMS]

theorem manualOf_none_not_platform (args : Args) (pl : String)
    (hw : args.win.isSome) (hl : args.linux.isSome) (hm : args.mac.isSome)
    (hma : args.mac_arm64.isSome) (h : manualOf args pl = none) :
    ∀ pc ∈ PLATFORMS, pc.1 ≠ pl := by
  unfold manualOf at h
  split at h
  · rw [h] at hw
    exact absurd hw (by simp)
  · split at h
    · rw [h] at hl
      exact absurd hl (by simp)
    · split at h
      · rw [h] at hm
        exact absurd hm (by simp)
      · split at h
        · rw [h] at hma
          exact absurd hma (by simp)
        · rename_i h1 h2 h3 h4
          intro pc hpc
          simp only [PLATFORMS, List.mem_cons, List.not_mem_nil, or_false] at hpc
          rcases hpc with h | h | h | h <;>
            (rw [h]; intro he; simp_all)

theorem getS_collect (args : Args) (defaults : List SearchDir) (pl : String) :
    getS (collectArchives args defaults) pl
      = (manualOf args pl).or (firstFound args defaults pl) := by
  unfold collectArchives firstFound
  by_cases hlen : (manualList args).length < PLATFORMS.length
  · rw [if_pos hlen, getS_dirs_foldl, getS_manualList]
  · rw [if_neg hlen, getS_manualList]
    cases hmo : manualOf args pl with
    | some v => simp
    | none =>
        obtain ⟨hw, hl, hm, hma⟩ := manual_full_of_not_lt args hlen
        have hnp := manualOf_none_not_platform args pl hw hl hm hma hmo
        have : ∀ d ∈ searchDirs args defaults, getS (find_archives d) pl = none :=
          fun d _ => getS_find_archives_none d pl hnp
        rw [List.filterMap_eq_nil_iff.mpr this]
        simp

theorem nodup_keys_manualList (args : Args) :
    ((manualList args).map Prod.fst).Nodup := by
  obtain ⟨w, l, m, ma, ad, li⟩ := args
  cases w <;> cases l <;> cases m <;> cases ma <;>
    simp [manualList, optEntry]

theorem getS_none_not_mem_keys {l : List (String × String)} {k : String}
    (h : getS l k = none) : k ∉ l.map Prod.fst := by
  unfold getS at h
  rw [Option.map_eq_none'] at h
  rw [List.find?_eq_none] at h
  intro hk
  obtain ⟨e, he, hek⟩ := List.mem_map.mp hk
  exact h e he (by simpa using hek)

theorem nodup_keys_insertNew (acc : List (String × String)) (kv : String × String)
    (h : (acc.map Prod.fst).Nodup) : ((insertNew acc kv).map Prod.fst).Nodup := by
  unfold insertNew
  split
  · exact h
  · rename_i hp
    rw [List.map_append]
    rw [List.nodup_append]
    refine ⟨h, List.nodup_singleton kv.1, ?_⟩
    have hn : getS acc kv.1 = none := Option.not_isSome_iff_eq_none.mp hp
    have := getS_none_not_mem_keys hn
    intro x hx
    simp only [List.map_cons, List.map_nil, List.mem_singleton]
    intro he
    rw [he] at hx
    exact this hx

theorem nodup_keys_foldl (found : List (String × String)) :
    ∀ acc, (acc.map Prod.fst).Nodup →
      ((found.foldl insertNew acc).map Prod.fst).Nodup := by
  induction found with
  | nil => intro acc h; exact h
  | cons kv rest ih =>
      intro acc h
      exact ih (insertNew acc kv) (nodup_keys_insertNew acc kv h)

theorem nodup_keys_dirs (dirs : List SearchDir) :
    ∀ m, (m.map Prod.fst).Nodup →
      ((dirs.foldl (fun acc d => (find_archives d).foldl insertNew acc)
          m).map Prod.fst).Nodup := by
  induction dirs with
  | nil => intro m h; exact h
  | cons d rest ih =>
      intro m h
      exact ih _ (nodup_keys_foldl (find_archives d) m h)

theorem nodup_keys_collect (args : Args) (defaults : List SearchDir) :
    ((collectArchives args defaults).map Prod.fst).Nodup := by
  unfold collectArchives
  split
  · exact nodup_keys_dirs (searchDirs args defaults) (manualList args)
      (nodup_keys_manualList args)
  · exact nodup_keys_manualList args

/-- C4: the archive assignment is a dict (no duplicate platform keys, at
most one path per platform); for every platform its final assignment is
the manual override when given, otherwise the first search directory's
discovery (in priority order) — so an assignment is never overwritten by a
later, lower-priority source, and in particular a manually-specified
`--win` path always wins over discovered Windows archives. -/
theorem c4_assignment_precedence :
    (∀ (args : Args) (defaults : List SearchDir) (pl : String),
      getS (collectArchives args defaults) pl
        = (manualOf args pl).or (firstFound args defaults pl))
    ∧ (∀ (args : Args) (defaults : List SearchDir),
        ((collectArchives args defaults).map Prod.fst).Nodup)
    ∧ (∀ (args : Args) (defaults : List SearchDir) (p : String),
        args.win = some p →
        getS (collectArchives args defaults) "win-x64" = some p) := by
  refine ⟨getS_collect, nodup_keys_collect, ?_⟩
  intro args defaults p hw
  rw [getS_collect]
  have hm : manualOf args "win-x64" = some p := by simp [manualOf, hw]
  rw [hm]
  rfl

/-- C4 witness: a manual `--win` path wins although the search directory
holds a matching Windows archive. -/
theorem c4_assignment_precedence_witness :
    getS
      (collectArchives
        ⟨some "sdk-win.7z", none, none, none, some ⟨true, ["custom-win-x64.7z"]⟩,
          false⟩ [])
      "win-x64" = some "sdk-win.7z" :=
  c4_assignment_precedence.2.2
    ⟨some "sdk-win.7z", none, none, none, some ⟨true, ["custom-win-x64.7z"]⟩, false⟩
    [] "sdk-win.7z" rfl

theorem charToNat_inj {a b : Char} (h : a.toNat = b.toNat) : a = b :=
  Char.ext (UInt32.toNat.inj h)

theorem strLtCore_trans : ∀ as bs cs : List Char,
    strLtCore as bs = true → strLtCore bs cs = true → strLtCore as cs = true := by
  intro as
  induction as with
  | nil =>
      intro bs cs h1 h2
      cases bs with
      | nil => exact absurd h1 (by simp [strLtCore])
      | cons b bs2 =>
          cases cs with
          | nil => exact absurd h2 (by simp [strLtCore])
          | cons c cs2 => simp [strLtCore]
  | cons a as2 ih =>
      intro bs cs h1 h2
      cases bs with
      | nil => exact absurd h1 (by simp [strLtCore])
      | cons b bs2 =>
          cases cs with
          | nil => exact absurd h2 (by simp [strLtCore])
          | cons c cs2 =>
              simp only [strLtCore, Bool.or_eq_true, Bool.and_eq_true, Nat.blt_eq,
                beq_iff_eq] at h1 h2 ⊢
              rcases h1 with h1 | ⟨hab, h1⟩
              · rcases h2 with h2 | ⟨hbc, h2⟩
                · exact Or.inl (Nat.lt_trans h1 h2)
                · subst hbc
                  exact Or.inl h1
              · subst hab
                rcases h2 with h2 | ⟨hbc, h2⟩
                · exact Or.inl h2
                · subst hbc
                  exact Or.inr ⟨rfl, ih bs2 cs2 h1 h2⟩

theorem strLtCore_total : ∀ as bs : List Char,
    strLtCore as bs = true ∨ as = bs ∨ strLtCore bs as = true := by
  intro as
  induction as with
  | nil =>
      intro bs
      cases bs with
      | nil => exact Or.inr (Or.inl rfl)
      | cons b bs2 => exact Or.inl (by simp [strLtCore])
  | cons a as2 ih =>
      intro bs
      cases bs with
      | nil => exact Or.inr (Or.inr (by simp [strLtCore]))
      | cons b bs2 =>
          rcases Nat.lt_trichotomy a.toNat b.toNat with h | h | h
          · exact Or.inl (by simp [strLtCore, Nat.blt_eq, h])
          · have hab : a = b := charToNat_inj h
            subst hab
            rcases ih bs2 with h2 | h2 | h2
            · exact Or.inl (by simp [strLtCore, h2])
            · exact Or.inr (Or.inl (by rw [h2]))
            · exact Or.inr (Or.inr (by simp [strLtCore, h2]))
          · exact Or.inr (Or.inr (by simp [strLtCore, Nat.blt_eq, h]))

theorem strLt_trans {a b c : String} (h1 : strLt a b = true)
    (h2 : strLt b c = true) : strLt a c = true :=
  strLtCore_trans a.data b.data c.data h1 h2

theorem strLt_total (a b : String) :
    strLt a b = true ∨ a = b ∨ strLt b a = true := by
  rcases strLtCore_total a.data b.data with h | h | h
  · exact Or.inl h
  · exact Or.inr (Or.inl (String.ext h))
  · exact Or.inr (Or.inr h)

/-- `x` is at most `y` in the Python string order. -/
def strLe (x y : String) : Prop := x = y ∨ strLt x y = true

theorem strLe_trans {x y z : String} (h1 : strLe x y) (h2 : strLe y z) :
    strLe x z := by
  rcases h1 with rfl | h1
  · exact h2
  · rcases h2 with rfl | h2
    · exact Or.inr h1
    · exact Or.inr (strLt_trans h1 h2)

theorem strLe_op_left (a b : String) :
    strLe a (if strLt a b then b else a) := by
  by_cases h : strLt a b
  · rw [if_pos h]
    exact Or.inr h
  · rw [if_neg h]
    exact Or.inl rfl

theorem strLe_op_right (a b : String) :
    strLe b (if strLt a b then b else a) := by
  by_cases h : strLt a b
  · rw [if_pos h]
    exact Or.inl rfl
  · rw [if_neg h]
    rcases strLt_total a b with h2 | h2 | h2
    · exact absurd h2 (by simpa using h)
    · exact Or.inl h2.symm
    · exact Or.inr h2

theorem maxStr_foldl_mem : ∀ (l : List String) (a : String),
    l.foldl (fun x y => if strLt x y then y else x) a = a
      ∨ l.foldl (fun x y => if strLt x y then y else x) a ∈ l := by
  intro l
  induction l with
  | nil => intro a; exact Or.inl rfl
  | cons b l2 ih =>
      intro a
      rw [List.foldl_cons]
      rcases ih (if strLt a b then b else a) with h | h
      · rw [h]
        by_cases hab : strLt a b
        · rw [if_pos hab]
          exact Or.inr (List.mem_cons_self b l2)
        · rw [if_neg hab]
          exact Or.inl rfl
      · exact Or.inr (List.mem_cons_of_mem b h)

theorem maxStr_foldl_le : ∀ (l : List String) (a x : String),
    x = a ∨ x ∈ l →
      strLe x (l.foldl (fun x y => if strLt x y then y else x) a) := by
  intro l
  induction l with
  | nil =>
      intro a x hx
      rcases hx with rfl | hx
      · exact Or.inl rfl
      · exact absurd hx (List.not_mem_nil x)
  | cons b l2 ih =>
      intro a x hx
      rw [List.foldl_cons]
      rcases hx with rfl | hx
      · exact strLe_trans (strLe_op_left x b) (ih _ _ (Or.inl rfl))
      · rcases List.mem_cons.mp hx with rfl | hx2
        · exact strLe_trans (strLe_op_right a x) (ih _ _ (Or.inl rfl))
        · exact ih _ x (Or.inr hx2)

theorem strLt_nil_false (x : String) : strLt x "" = false := by
  cases hx : x.data with
  | nil => simp [strLt, hx, strLtCore]
  | cons c cs => simp [strLt, hx, strLtCore]

theorem pickArchive_max (files : List String) (pat ext m : String)
    (h : pickArchive files pat ext = some m) :
    m ∈ globFiles files (pat ++ ext)
    ∧ ∀ f ∈ globFiles files (pat ++ ext), f = m ∨ strLt f m = true := by
  unfold pickArchive at h
  cases hg : globFiles files (pat ++ ext) with
  | nil =>
      rw [hg] at h
      exact absurd h (by simp)
  | cons g gs =>
      rw [hg] at h
      have hm : m = maxStr (g :: gs) := (Option.some.injEq _ _ ▸ h).symm
      have hub : ∀ f ∈ g :: gs, strLe f (maxStr (g :: gs)) :=
        fun f hf => maxStr_foldl_le (g :: gs) "" f (Or.inr hf)
      have hmem : maxStr (g :: gs) ∈ g :: gs := by
        rcases maxStr_foldl_mem (g :: gs) "" with h0 | h0
        · have h02 : maxStr (g :: gs) = "" := h0
          rcases hub g (List.mem_cons_self g gs) with hge | hgt
          · rw [← hge]
            exact List.mem_cons_self g gs
          · rw [h02, strLt_nil_false g] at hgt
            exact Bool.noConfusion hgt
        · exact h0
      subst hm
      exact ⟨hmem, fun f hf => hub f hf⟩

theorem tryExts_eq (files : List String) (pat : String) :
    ∀ es : List String,
      tryExts files pat es
        = ((es.map (fun e => (pat, e))).filterMap
            (fun pe => pickArchive files pe.1 pe.2)).head? := by
  intro es
  induction es with
  | nil => rfl
  | cons e es2 ih =>
      rw [List.map_cons, List.filterMap_cons]
      cases hp : pickArchive files pat e with
      | none => simpa [tryExts, hp] using ih
      | some f => simp [tryExts, hp]

theorem tryPats_eq (files : List String) :
    ∀ pats : List String,
      tryPats files pats
        = ((patExtPairs pats).filterMap
            (fun pe => pickArchive files pe.1 pe.2)).head? := by
  intro pats
  induction pats with
  | nil => rfl
  | cons p ps ih =>
      have hpe : patExtPairs (p :: ps)
          = (exts.map (fun e => (p, e))) ++ patExtPairs ps := by
        simp [patExtPairs]
      rw [hpe, List.filterMap_append, List.head?_append]
      simp only [tryPats]
      rw [tryExts_eq files p exts, ih]
      cases ht : ((exts.map (fun e => (p, e))).filterMap
          (fun pe => pickArchive files pe.1 pe.2)).head? <;> simp [ht]

theorem getS_find_archives_platform (files : List String) :
    ∀ (L : List (String × List String)) (pl : String) (pats : List String),
      (L.map Prod.fst).Nodup → (pl, pats) ∈ L →
      getS (L.filterMap (fun pc => (tryPats files pc.2).map (fun f => (pc.1, f)))) pl
        = tryPats files pats := by
  intro L
  induction L with
  | nil =>
      intro pl pats _ h
      exact absurd h (List.not_mem_nil _)
  | cons pc rest ih =>
      intro pl pats hnd hmem
      rw [List.map_cons, List.nodup_cons] at hnd
      rw [List.filterMap_cons]
      rcases List.mem_cons.mp hmem with heq | hmem2
      · have hpc : pc = (pl, pats) := heq.symm
        subst hpc
        have hout : ∀ x ∈ rest, x.1 ≠ pl := by
          intro x hx he
          apply hnd.1
          rw [← he]
          exact List.mem_map.mpr ⟨x, hx, rfl⟩
        cases ht : tryPats files pats with
        | none =>
            simp only [Option.map_none']
            exact getS_filterMap_none files rest pl hout
        | some f =>
            simp only [Option.map_some']
            rw [getS_cons, if_pos (by simp)]
      · have hne : pc.1 ≠ pl := by
          intro he
          apply hnd.1
          rw [he]
          exact List.mem_map.mpr ⟨(pl, pats), hmem2, rfl⟩
        cases ht : tryPats files pc.2 with
        | none =>
            simp only [Option.map_none']
            exact ih pl pats hnd.2 hmem2
        | some f =>
            simp only [Option.map_some']
            rw [getS_cons, if_neg (by simpa using hne)]
            exact ih pl pats hnd.2 hmem2

/-- C5: for each platform, `find_archives` probes the (pattern,
extension) pairs in pattern-priority order with `.7z` before `.zip` per
pattern, its assignment being the first probe with any matches; a probe's
result is the lexicographically largest matching filename (it is a match,
and every match is it or strictly below it); and in the two-versions
scenario the 1.4.0 Linux archive is selected. -/
theorem c5_locator_first_hit :
    (∀ (files : List String) (pl : String) (pats : List String),
      (pl, pats) ∈ PLATFORMS →
      getS (find_archives ⟨true, files⟩) pl
        = ((patExtPairs pats).filterMap
            (fun pe => pickArchive files pe.1 pe.2)).head?)
    ∧ (∀ (files : List String) (pat ext m : String),
        pickArchive files pat ext = some m →
        m ∈ globFiles files (pat ++ ext)
        ∧ ∀ f ∈ globFiles files (pat ++ ext), f = m ∨ strLt f m = true)
    ∧ getS (find_archives ⟨true, files0⟩) "linux-x64"
        = some "ultralight-sdk-1.4.0-linux-x64.7z" := by
  refine ⟨?_, pickArchive_max, by decide⟩
  intro files pl pats hmem
  have hfa : find_archives ⟨true, files⟩
      = PLATFORMS.filterMap
          (fun pc => (tryPats files pc.2).map (fun f => (pc.1, f))) := by
    simp [find_archives]
  rw [hfa, getS_find_archives_platform files PLATFORMS pl pats (by decide) hmem,
    tryPats_eq]

/-- C5 witness: the linux-x64 probe order applied to the two-versions
directory, and the max property of the first hitting probe. -/
theorem c5_locator_first_hit_witness :
    (("linux-x64", ["*linux*x64*", "*linux*64*"]) ∈ PLATFORMS
      ∧ getS (find_archives ⟨true, files0⟩) "linux-x64"
          = ((patExtPairs ["*linux*x64*", "*linux*64*"]).filterMap
              (fun pe => pickArchive files0 pe.1 pe.2)).head?)
    ∧ (pickArchive files0 "*linux*x64*" ".7z"
          = some "ultralight-sdk-1.4.0-linux-x64.7z"
      ∧ "ultralight-sdk-1.4.0-linux-x64.7z"
          ∈ globFiles files0 ("*linux*x64*" ++ ".7z")
      ∧ ∀ f ∈ globFiles files0 ("*linux*x64*" ++ ".7z"),
          f = "ultralight-sdk-1.4.0-linux-x64.7z"
            ∨ strLt f "ultralight-sdk-1.4.0-linux-x64.7z" = true) :=
  ⟨⟨by decide,
    c5_locator_first_hit.1 files0 "linux-x64" ["*linux*x64*", "*linux*64*"]
      (by decide)⟩,
   ⟨by decide,
    c5_locator_first_hit.2.1 files0 "*linux*x64*" ".7z"
      "ultralight-sdk-1.4.0-linux-x64.7z" (by decide)⟩⟩

end SetupSdk
